import Mathlib

/-!
Formal model of `src/packets.rs` (the coremidi packet codec):
`PacketBuffer` with its two storage backends (`FixedStorage`, `DynStorage`),
`PacketListRef`, `PacketRef` and `PacketListIterator`.

Modelling conventions:
* A byte region is a `List Nat`; every byte stored by the code is `< 256`
  (multi-byte stores go through `leBytes`, payload bytes come from `u8`
  slices).
* Multi-byte fields are stored and read little-endian, the native byte
  order of the supported build targets; the source writes via
  `ptr::copy_nonoverlapping` of a `u64`/`u16`/`u32` and reads via
  `ptr::read_unaligned`, both of which see the same native order, so one
  fixed order is faithful for every claim compared here.
* Addresses become offsets from the batch base.  The source asserts the
  base to be 4-byte aligned (`assert!(buffer.ptr() as usize % 4 == 0)`),
  so rounding an absolute address up to a multiple of 4 coincides with
  rounding the offset; alignment of the base itself is a property of the
  allocator, outside the byte-list model.
* The `u32` count header is incremented with `+= 1`, i.e. wrap-around
  arithmetic modulo 2^32 (the compiled release-mode behaviour).
* Panics of the source (`assert!(packet.len() <= u16::max_value())`,
  `panic!("BufferTooSmall")`) are surfaced as values of `MidiErr`:
  `payloadTooLarge` for the length assert, `bufferFull` for the
  `BufferTooSmall` panic on a failed storage request.
* `DynStorage::request` grows the vector with `reserve` + `set_len`,
  exposing fresh uninitialised bytes; `DynStorage.request` takes them to
  be `0`, and `DynStorage.requestFill` keeps their value an explicit
  parameter so that properties can be shown independent of it.
  `FixedStorage` hands out a window of the caller's region, whose previous
  contents survive where the code does not overwrite them (relevant for
  the alignment padding, which the code never writes).
-/

namespace Packets

/-- Little-endian bytes of `v`, `w` bytes wide: the store performed by
`ptr::copy_nonoverlapping` from a `w`-byte integer on a little-endian
build target.  Only the low `w` bytes of `v` are kept, exactly as a
`u64`/`u32`/`u16` store would. -/
def leBytes : Nat → Nat → List Nat
  | 0, _ => []
  | w + 1, v => v % 256 :: leBytes w (v / 256)

/-- Little-endian value of a byte list: the load performed by
`ptr::read_unaligned` of a multi-byte integer. -/
def leVal : List Nat → Nat
  | [] => 0
  | b :: bs => b % 256 + 256 * leVal bs

/-- Overwrite `buf[off .. off + bs.length)` with `bs`: a
`ptr::copy_nonoverlapping` into a span previously handed out by
`request`.  All uses stay within `buf` (`request` guarantees it). -/
def writeBytes (buf : List Nat) (off : Nat) (bs : List Nat) : List Nat :=
  buf.take off ++ bs ++ buf.drop (off + bs.length)

/-- Read `w` bytes at offset `off` as a little-endian value. -/
def readLE (buf : List Nat) (off w : Nat) : Nat :=
  leVal ((buf.drop off).take w)

/-- Failure modes of the builder (panics in the source). -/
inductive MidiErr
  | bufferFull
  | payloadTooLarge
  | bufferMisaligned
deriving DecidableEq, Repr

/-- The inter-record layout, selected in the source by
`#[cfg(target_arch = ...)]`: `packed` on x86/x86_64, `aligned4` on
arm/aarch64.  The model threads the choice explicitly. -/
inductive LayoutPolicy
  | packed
  | aligned4
deriving DecidableEq, Repr

/-- Round up to a multiple of 4: the source's `(x + 3) & !3` on `usize`
(identical to `(x + 3) / 4 * 4` for every `x` with `x + 3 < 2^64`; larger
sizes are not representable in an address space). -/
def alignUp4 (n : Nat) : Nat := (n + 3) / 4 * 4

/-- The policy-adjusted size of a request/record advance: `req_size` is
rounded up only under the arm cfg branch. -/
def padReq (pol : LayoutPolicy) (n : Nat) : Nat :=
  match pol with
  | .packed => n
  | .aligned4 => alignUp4 n

/-- `FixedStorage`: a caller-owned region (`data: &mut [u8]`) plus the
`used` cursor. -/
structure FixedStorage where
  data : List Nat
  used : Nat
deriving DecidableEq, Repr

/-- `FixedStorage::request`: hands out the span
`data[used .. used + length)` — returned here as its start offset — and
advances `used`, provided `used + length < data.len()` (the source's
strict comparison); otherwise `None` and the storage is untouched. -/
def FixedStorage.request (s : FixedStorage) (length : Nat) :
    Option Nat × FixedStorage :=
  if s.used + length < s.data.length then
    (some s.used, { s with used := s.used + length })
  else
    (none, s)

/-- `DynStorage`: an owned growable `Vec<u8>`. -/
structure DynStorage where
  data : List Nat
deriving DecidableEq, Repr

/-- `DynStorage::request`: `reserve` + `set_len`, always succeeds; the
span starts at the previous length.  The freshly exposed bytes are
uninitialised in the source; this instance fills them with `0`, and any
statement whose truth could depend on that choice is instead proved over
`DynStorage.requestFill` below, which takes the fill value as a
parameter. -/
def DynStorage.request (s : DynStorage) (length : Nat) :
    Option Nat × DynStorage :=
  (some s.data.length, { data := s.data ++ List.replicate length 0 })

/-- `*(ptr as *mut u32) += 1`: load the 4-byte count, add one with `u32`
wrap-around, store it back. -/
def incrCount (buf : List Nat) : List Nat :=
  writeBytes buf 0 (leBytes 4 ((leVal (buf.take 4) + 1) % 2 ^ 32))

/-- `PacketBuffer::push_packet` on `FixedStorage`: assert the payload
fits in a `u16`, compute `req_size = 10 + packet.len()` adjusted by the
layout policy, request that many bytes, write timestamp (8 bytes at span
offset 0), length (2 bytes at span offset 8) and payload (at span offset
10) — three contiguous `copy_nonoverlapping`s, i.e. one contiguous
write — then increment the count header. -/
def pushPacketFixed (pol : LayoutPolicy) (s : FixedStorage)
    (timestamp : Nat) (packet : List Nat) : Option MidiErr × FixedStorage :=
  if packet.length ≤ 65535 then
    match FixedStorage.request s (padReq pol (10 + packet.length)) with
    | (some off, s1) =>
      let d1 := writeBytes s1.data off
        (leBytes 8 timestamp ++ leBytes 2 packet.length ++ packet)
      (none, { s1 with data := incrCount d1 })
    | (none, s1) => (some .bufferFull, s1)
  else
    (some .payloadTooLarge, s)

/-- `PacketBuffer::push_packet` on `DynStorage` (the same generic body,
monomorphised to the other storage). -/
def pushPacketDyn (pol : LayoutPolicy) (s : DynStorage)
    (timestamp : Nat) (packet : List Nat) : Option MidiErr × DynStorage :=
  if packet.length ≤ 65535 then
    match DynStorage.request s (padReq pol (10 + packet.length)) with
    | (some off, s1) =>
      let d1 := writeBytes s1.data off
        (leBytes 8 timestamp ++ leBytes 2 packet.length ++ packet)
      (none, { data := incrCount d1 })
    | (none, s1) => (some .bufferFull, s1)
  else
    (some .payloadTooLarge, s)

/-- `PacketBuffer::new_with_buf` on a caller-supplied fixed region:
request 4 bytes for the count header and zero them.  The subsequent
base-alignment assert is a property of the region's address, which the
byte-list model takes as given (every claim below concerns 4-byte-aligned
regions). -/
def newWithBufFixed (data : List Nat) : Option MidiErr × FixedStorage :=
  match FixedStorage.request { data := data, used := 0 } 4 with
  | (some off, s1) => (none, { s1 with data := writeBytes s1.data off (leBytes 4 0) })
  | (none, s1) => (some .bufferFull, s1)

/-- `PacketBuffer::new_with_buf` on `DynStorage { data: vec![] }`
(`PacketBuffer::dyn`). -/
def newWithBufDyn : Option MidiErr × DynStorage :=
  match DynStorage.request { data := [] } 4 with
  | (some off, s1) => (none, { data := writeBytes s1.data off (leBytes 4 0) })
  | (none, s1) => (some .bufferFull, s1)

/-- The freshly constructed dynamic builder (`PacketBuffer::dyn`). -/
def dynInit : DynStorage := newWithBufDyn.2

/-- One `foldl` step over a push sequence: once a push has failed the
remaining pushes are not executed (a panic unwinds). -/
def buildStepDyn (pol : LayoutPolicy) (acc : Option MidiErr × DynStorage)
    (p : Nat × List Nat) : Option MidiErr × DynStorage :=
  match acc with
  | (some e, s) => (some e, s)
  | (none, s) => pushPacketDyn pol s p.1 p.2

/-- Run a sequence of `push_packet` calls on a freshly constructed
dynamic builder. -/
def buildDyn (pol : LayoutPolicy) (ps : List (Nat × List Nat)) :
    Option MidiErr × DynStorage :=
  ps.foldl (buildStepDyn pol) (none, dynInit)

/-- `PacketRef::timestamp`: `read_unaligned` of the `u64` at the record
start. -/
def PacketRef.timestamp (buf : List Nat) (off : Nat) : Nat :=
  readLE buf off 8

/-- `PacketRef::data_length`: `read_unaligned` of the `u16` at record
offset 8. -/
def PacketRef.data_length (buf : List Nat) (off : Nat) : Nat :=
  readLE buf (off + 8) 2

/-- `PacketRef::data`: the borrowed slice
`from_raw_parts(self.data.offset(10), self.data_length())` — exactly
`data_length` bytes starting 10 bytes after the record start, no copy. -/
def PacketRef.data (buf : List Nat) (off : Nat) : List Nat :=
  (buf.drop (off + 10)).take (PacketRef.data_length buf off)

/-- `PacketRef::next`: `unadjusted = data.offset(10 + data_length)`, then
rounded up to a multiple of 4 under the arm cfg branch and left as-is
under the x86 one. -/
def PacketRef.next (pol : LayoutPolicy) (buf : List Nat) (off : Nat) : Nat :=
  match pol with
  | .packed => off + 10 + PacketRef.data_length buf off
  | .aligned4 => alignUp4 (off + 10 + PacketRef.data_length buf off)

/-- `PacketListRef::length`: the `u32` count header at the batch base. -/
def PacketListRef.length (buf : List Nat) : Nat :=
  readLE buf 0 4

/-- The iterator loop: starting from `cursor` with `remaining` records to
go, the record offsets yielded by successive `next()` calls
(`PacketListIterator { remaining, packet_ref }`). -/
def iterSteps (pol : LayoutPolicy) (buf : List Nat) :
    Nat → Nat → List Nat
  | 0, _ => []
  | n + 1, off => off :: iterSteps pol buf n (PacketRef.next pol buf off)

/-- `PacketListRef::iter`: `remaining = length()`, cursor starts at the
first byte after the 4-byte header. -/
def PacketListRef.iterOffsets (pol : LayoutPolicy) (buf : List Nat) : List Nat :=
  iterSteps pol buf (PacketListRef.length buf) 4

/-- The bytes one successful push appends for `(timestamp, packet)`:
timestamp (8 bytes), length (2 bytes), payload, then the policy padding
(present only under `aligned4`; its bytes are the untouched remainder of
the requested span, `0` on dynamic storage). -/
def encodeRecord (pol : LayoutPolicy) (p : Nat × List Nat) : List Nat :=
  leBytes 8 p.1 ++ leBytes 2 p.2.length ++ p.2 ++
    List.replicate (padReq pol (10 + p.2.length) - (10 + p.2.length)) 0

/-- Concatenation of the records of a push sequence. -/
def encodeRecords (pol : LayoutPolicy) (ps : List (Nat × List Nat)) : List Nat :=
  (ps.map (encodeRecord pol)).flatten

/-- Writer-side record offsets: the `i`-th record starts where the
previous policy-adjusted request ended. -/
def recOffsetsFrom (pol : LayoutPolicy) (start : Nat) :
    List (Nat × List Nat) → List Nat
  | [] => []
  | p :: rest =>
      start :: recOffsetsFrom pol (start + padReq pol (10 + p.2.length)) rest

/-- The decoded view of a record: its read-back fields agree with the
pushed pair (timestamp truncated to the `u64` that was stored). -/
def recordMatches (buf : List Nat) (o : Nat) (p : Nat × List Nat) : Prop :=
  PacketRef.timestamp buf o = p.1 % 2 ^ 64 ∧
  PacketRef.data_length buf o = p.2.length ∧
  PacketRef.data buf o = p.2

/-- The general model of `DynStorage::request`'s `reserve` + `set_len`:
the freshly exposed bytes are uninitialised in the source, so their
(unknown) value is a parameter `fill` here.  `DynStorage.request` above
is the `fill = 0` instance; any statement whose truth could depend on
the uninitialised contents is quantified over `fill` below. -/
def DynStorage.requestFill (fill : Nat) (s : DynStorage) (length : Nat) :
    Option Nat × DynStorage :=
  (some s.data.length, { data := s.data ++ List.replicate length fill })

/-- `PacketBuffer::push_packet` on `DynStorage`, with the uninitialised
bytes exposed by `request` modelled as `fill` instead of `0`;
`pushPacketDyn` is the `fill = 0` instance. -/
def pushPacketDynFill (fill : Nat) (pol : LayoutPolicy) (s : DynStorage)
    (timestamp : Nat) (packet : List Nat) : Option MidiErr × DynStorage :=
  if packet.length ≤ 65535 then
    match DynStorage.requestFill fill s (padReq pol (10 + packet.length)) with
    | (some off, s1) =>
      let d1 := writeBytes s1.data off
        (leBytes 8 timestamp ++ leBytes 2 packet.length ++ packet)
      (none, { data := incrCount d1 })
    | (none, s1) => (some .bufferFull, s1)
  else
    (some .payloadTooLarge, s)

/-- `PacketBuffer::new_with_buf` on an empty dynamic storage, with the
uninitialised bytes modelled as `fill` (the 4 exposed header bytes are
then fully overwritten with the zero count). -/
def newWithBufDynFill (fill : Nat) : Option MidiErr × DynStorage :=
  match DynStorage.requestFill fill { data := [] } 4 with
  | (some off, s1) => (none, { data := writeBytes s1.data off (leBytes 4 0) })
  | (none, s1) => (some .bufferFull, s1)

/-- The freshly constructed dynamic builder under the `fill` model. -/
def dynInitFill (fill : Nat) : DynStorage := (newWithBufDynFill fill).2

/-- One fold step of a push sequence under the `fill` model. -/
def buildStepDynFill (fill : Nat) (pol : LayoutPolicy)
    (acc : Option MidiErr × DynStorage) (p : Nat × List Nat) :
    Option MidiErr × DynStorage :=
  match acc with
  | (some e, s) => (some e, s)
  | (none, s) => pushPacketDynFill fill pol s p.1 p.2

/-- Run a sequence of `push_packet` calls on a freshly constructed
dynamic builder whose uninitialised bytes hold `fill`; `buildDyn` is the
`fill = 0` instance. -/
def buildDynFill (fill : Nat) (pol : LayoutPolicy)
    (ps : List (Nat × List Nat)) : Option MidiErr × DynStorage :=
  ps.foldl (buildStepDynFill fill pol) (none, dynInitFill fill)

/-- The bytes one successful push appends under the `fill` model: the
encoder writes timestamp, length and payload; the 0–3 trailing padding
bytes under `aligned4` are never written and keep the uninitialised
value `fill`. -/
def encodeRecordFill (fill : Nat) (pol : LayoutPolicy) (p : Nat × List Nat) :
    List Nat :=
  leBytes 8 p.1 ++ leBytes 2 p.2.length ++ p.2 ++
    List.replicate (padReq pol (10 + p.2.length) - (10 + p.2.length)) fill

/-- Concatenation of the records of a push sequence under the `fill`
model. -/
def encodeRecordsFill (fill : Nat) (pol : LayoutPolicy)
    (ps : List (Nat × List Nat)) : List Nat :=
  (ps.map (encodeRecordFill fill pol)).flatten

/-- Decoding a batch: walk the iterator and read each record view's
timestamp and payload. -/
def decodedPairs (pol : LayoutPolicy) (buf : List Nat) :
    List (Nat × List Nat) :=
  (PacketListRef.iterOffsets pol buf).map
    (fun o => (PacketRef.timestamp buf o, PacketRef.data buf o))

/-! ### Byte-codec lemmas -/

@[simp] lemma length_leBytes (w v : Nat) : (leBytes w v).length = w := by
  induction w generalizing v with
  | zero => rfl
  | succ w ih => simp [leBytes, ih]

lemma leVal_leBytes (w v : Nat) : leVal (leBytes w v) = v % 256 ^ w := by
  induction w generalizing v with
  | zero => simp [leBytes, leVal, Nat.mod_one]
  | succ w ih =>
    show (v % 256) % 256 + 256 * leVal (leBytes w (v / 256)) = v % 256 ^ (w + 1)
    rw [Nat.mod_mod_of_dvd _ dvd_rfl, ih, pow_succ', Nat.mod_mul]

lemma leBytes_mod (w v : Nat) : leBytes w (v % 256 ^ w) = leBytes w v := by
  induction w generalizing v with
  | zero => rfl
  | succ w ih =>
    show (v % 256 ^ (w + 1)) % 256 :: leBytes w (v % 256 ^ (w + 1) / 256)
        = v % 256 :: leBytes w (v / 256)
    rw [pow_succ', Nat.mod_mod_of_dvd v (Dvd.intro _ rfl),
      Nat.mod_mul_right_div_self, ih]

lemma length_writeBytes (buf bs : List Nat) (off : Nat)
    (h : off + bs.length ≤ buf.length) :
    (writeBytes buf off bs).length = buf.length := by
  simp [writeBytes]
  omega

lemma writeBytes_at_end (a bs : List Nat) (n x : Nat) (h : bs.length ≤ n) :
    writeBytes (a ++ List.replicate n x) a.length bs
      = a ++ (bs ++ List.replicate (n - bs.length) x) := by
  unfold writeBytes
  rw [List.take_left, List.drop_append, List.drop_replicate, List.append_assoc]

lemma incrCount_shape (c : Nat) (rest : List Nat) :
    incrCount (leBytes 4 c ++ rest) = leBytes 4 ((c + 1) % 2 ^ 32) ++ rest := by
  have h256 : (256 : Nat) ^ 4 = 2 ^ 32 := by norm_num
  have hmod : (c % 2 ^ 32 + 1) % 2 ^ 32 = (c + 1) % 2 ^ 32 := by
    have e : (2 : Nat) ^ 32 = 4294967296 := by norm_num
    rw [e]; omega
  unfold incrCount writeBytes
  rw [List.take_left' (length_leBytes 4 c), leVal_leBytes, h256, hmod]
  simp only [List.take_zero, List.nil_append, length_leBytes]
  rw [Nat.zero_add, List.drop_left' (length_leBytes 4 c)]

/-! ### Arithmetic of the layout policy -/

lemma le_padReq (pol : LayoutPolicy) (n : Nat) : n ≤ padReq pol n := by
  cases pol <;> simp [padReq, alignUp4] <;> omega

lemma dvd_alignUp4 (n : Nat) : 4 ∣ alignUp4 n :=
  Dvd.intro_left _ rfl

lemma alignUp4_add {a : Nat} (b : Nat) (h : 4 ∣ a) :
    alignUp4 (a + b) = a + alignUp4 b := by
  obtain ⟨k, rfl⟩ := h
  unfold alignUp4
  omega

lemma length_encodeRecord (pol : LayoutPolicy) (p : Nat × List Nat) :
    (encodeRecord pol p).length = padReq pol (10 + p.2.length) := by
  have h := le_padReq pol (10 + p.2.length)
  simp [encodeRecord]
  omega

lemma encodeRecords_cons (pol : LayoutPolicy) (p : Nat × List Nat)
    (ps : List (Nat × List Nat)) :
    encodeRecords pol (p :: ps) = encodeRecord pol p ++ encodeRecords pol ps := by
  simp [encodeRecords]

/-! ### Reading back one record -/

lemma readLE_at (buf post : List Nat) (off w v : Nat)
    (h : buf.drop off = leBytes w v ++ post) : readLE buf off w = v % 256 ^ w := by
  unfold readLE
  rw [h, List.take_left' (length_leBytes w v), leVal_leBytes]

lemma drop_add (buf : List Nat) (off k : Nat) :
    buf.drop (off + k) = (buf.drop off).drop k := by
  rw [List.drop_drop, Nat.add_comm]

/-- Reading the record encoded at offset `pre.length` recovers the pushed
timestamp (mod 2^64, the `u64` store), length and payload, and the
iterator's cursor advance lands exactly at the end of the policy-adjusted
span. -/
lemma fields_at (pol : LayoutPolicy) (pre tail : List Nat) (ts : Nat)
    (pkt : List Nat) (hlen : pkt.length ≤ 65535)
    (halign : pol = .aligned4 → 4 ∣ pre.length) :
    PacketRef.timestamp (pre ++ (encodeRecord pol (ts, pkt) ++ tail)) pre.length
        = ts % 2 ^ 64 ∧
    PacketRef.data_length (pre ++ (encodeRecord pol (ts, pkt) ++ tail)) pre.length
        = pkt.length ∧
    PacketRef.data (pre ++ (encodeRecord pol (ts, pkt) ++ tail)) pre.length = pkt ∧
    PacketRef.next pol (pre ++ (encodeRecord pol (ts, pkt) ++ tail)) pre.length
        = pre.length + padReq pol (10 + pkt.length) := by
  set pad := List.replicate (padReq pol (10 + pkt.length) - (10 + pkt.length)) 0
    with hpad
  set buf := pre ++ (encodeRecord pol (ts, pkt) ++ tail) with hbuf
  have hdrop0 : buf.drop pre.length
      = leBytes 8 ts ++ (leBytes 2 pkt.length ++ (pkt ++ (pad ++ tail))) := by
    rw [hbuf, List.drop_left]
    simp [encodeRecord, List.append_assoc, hpad]
  have hdrop8 : buf.drop (pre.length + 8)
      = leBytes 2 pkt.length ++ (pkt ++ (pad ++ tail)) := by
    rw [drop_add, hdrop0, List.drop_left' (length_leBytes 8 ts)]
  have hdrop10 : buf.drop (pre.length + 10) = pkt ++ (pad ++ tail) := by
    have e : pre.length + 10 = pre.length + 8 + 2 := by omega
    rw [e, drop_add, hdrop8, List.drop_left' (length_leBytes 2 pkt.length)]
  have hts : PacketRef.timestamp buf pre.length = ts % 2 ^ 64 := by
    have h := readLE_at buf _ pre.length 8 ts hdrop0
    rw [show (256 : Nat) ^ 8 = 2 ^ 64 by norm_num] at h
    exact h
  have hdl : PacketRef.data_length buf pre.length = pkt.length := by
    have h := readLE_at buf _ (pre.length + 8) 2 pkt.length hdrop8
    rw [show (256 : Nat) ^ 2 = 65536 by norm_num,
      Nat.mod_eq_of_lt (by omega)] at h
    exact h
  have hdata : PacketRef.data buf pre.length = pkt := by
    unfold PacketRef.data
    rw [hdl, hdrop10, List.take_left]
  refine ⟨hts, hdl, hdata, ?_⟩
  cases pol with
  | packed =>
    simp only [PacketRef.next, hdl, padReq]
    omega
  | aligned4 =>
    simp only [PacketRef.next, hdl, padReq]
    rw [Nat.add_assoc, alignUp4_add _ (halign rfl)]

/-- Walking the iterator over the records encoded after `pre` yields the
writer-side offsets, and at each of them the decoded fields are the pushed
ones.  `tail` is arbitrary trailing garbage (the iterator never looks past
the records it was told about). -/
lemma iter_walk (pol : LayoutPolicy) (tail : List Nat) :
    ∀ (ps : List (Nat × List Nat)) (pre : List Nat),
      (∀ p ∈ ps, p.2.length ≤ 65535) →
      (pol = .aligned4 → 4 ∣ pre.length) →
      iterSteps pol (pre ++ (encodeRecords pol ps ++ tail)) ps.length pre.length
          = recOffsetsFrom pol pre.length ps ∧
      List.Forall₂ (fun o p =>
          PacketRef.timestamp (pre ++ (encodeRecords pol ps ++ tail)) o
              = p.1 % 2 ^ 64 ∧
          PacketRef.data_length (pre ++ (encodeRecords pol ps ++ tail)) o
              = p.2.length ∧
          PacketRef.data (pre ++ (encodeRecords pol ps ++ tail)) o = p.2)
        (recOffsetsFrom pol pre.length ps) ps := by
  intro ps
  induction ps with
  | nil =>
    intro pre hv halign
    exact ⟨rfl, List.Forall₂.nil⟩
  | cons p rest ih =>
    intro pre hv halign
    have hlen : p.2.length ≤ 65535 := hv p (List.mem_cons_self p rest)
    have hv' : ∀ q ∈ rest, q.2.length ≤ 65535 :=
      fun q hq => hv q (List.mem_cons_of_mem p hq)
    have ebuf : pre ++ (encodeRecords pol (p :: rest) ++ tail)
        = pre ++ (encodeRecord pol p ++ (encodeRecords pol rest ++ tail)) := by
      rw [encodeRecords_cons, List.append_assoc]
    have ebuf2 : pre ++ (encodeRecords pol (p :: rest) ++ tail)
        = (pre ++ encodeRecord pol p) ++ (encodeRecords pol rest ++ tail) := by
      rw [ebuf, List.append_assoc]
    have hfields := fields_at pol pre (encodeRecords pol rest ++ tail) p.1 p.2
      hlen halign
    rw [← ebuf] at hfields
    have halign' : pol = .aligned4 → 4 ∣ (pre ++ encodeRecord pol p).length := by
      intro hp
      rw [List.length_append, length_encodeRecord, hp]
      exact Nat.dvd_add (halign hp) (dvd_alignUp4 _)
    have hpre' : (pre ++ encodeRecord pol p).length
        = pre.length + padReq pol (10 + p.2.length) := by
      rw [List.length_append, length_encodeRecord]
    have ihx := ih (pre ++ encodeRecord pol p) hv' halign'
    rw [← ebuf2, hpre'] at ihx
    constructor
    · show (pre.length :: iterSteps pol _ rest.length
          (PacketRef.next pol _ pre.length)) = _
      rw [hfields.2.2.2, ihx.1]
      rfl
    · exact List.Forall₂.cons ⟨hfields.1, hfields.2.1, hfields.2.2.1⟩ ihx.2

/-! ### What one successful dynamic push does to the buffer -/

lemma pushPacketDyn_ok (pol : LayoutPolicy) (c : Nat) (recs : List Nat)
    (ts : Nat) (pkt : List Nat) (h : pkt.length ≤ 65535) :
    pushPacketDyn pol ⟨leBytes 4 c ++ recs⟩ ts pkt
      = (none, ⟨leBytes 4 ((c + 1) % 2 ^ 32)
          ++ (recs ++ encodeRecord pol (ts, pkt))⟩) := by
  have hpr := le_padReq pol (10 + pkt.length)
  have hble : (leBytes 8 ts ++ leBytes 2 pkt.length ++ pkt).length
      ≤ padReq pol (10 + pkt.length) := by
    simp only [List.length_append, length_leBytes]
    omega
  have hlen10 : (leBytes 8 ts ++ leBytes 2 pkt.length ++ pkt).length
      = 10 + pkt.length := by
    simp only [List.length_append, length_leBytes]
  have hrec : (leBytes 8 ts ++ leBytes 2 pkt.length ++ pkt)
      ++ List.replicate (padReq pol (10 + pkt.length) - (10 + pkt.length)) 0
      = encodeRecord pol (ts, pkt) := by
    simp [encodeRecord, List.append_assoc]
  simp only [pushPacketDyn, DynStorage.request, if_pos h]
  rw [writeBytes_at_end _ _ _ _ hble, hlen10,
    List.append_assoc (leBytes 4 c) recs, incrCount_shape, hrec]

lemma buildDyn_from (pol : LayoutPolicy) :
    ∀ (ps : List (Nat × List Nat)) (c : Nat) (recs : List Nat),
      (∀ p ∈ ps, p.2.length ≤ 65535) →
      List.foldl (buildStepDyn pol) (none, ⟨leBytes 4 c ++ recs⟩) ps
        = (none, ⟨leBytes 4 ((c + ps.length) % 2 ^ 32)
            ++ (recs ++ encodeRecords pol ps)⟩) := by
  intro ps
  induction ps with
  | nil =>
    intro c recs hv
    simp only [List.foldl_nil, encodeRecords, List.map_nil, List.flatten_nil,
      List.append_nil, List.length_nil, Nat.add_zero]
    rw [← show (256 : Nat) ^ 4 = 2 ^ 32 by norm_num, leBytes_mod]
  | cons p rest ih =>
    intro c recs hv
    have hlen : p.2.length ≤ 65535 := hv p (List.mem_cons_self p rest)
    have hv' : ∀ q ∈ rest, q.2.length ≤ 65535 :=
      fun q hq => hv q (List.mem_cons_of_mem p hq)
    rw [List.foldl_cons]
    have hstep : buildStepDyn pol (none, ⟨leBytes 4 c ++ recs⟩) p
        = (none, ⟨leBytes 4 ((c + 1) % 2 ^ 32)
            ++ (recs ++ encodeRecord pol p)⟩) := by
      show pushPacketDyn pol ⟨leBytes 4 c ++ recs⟩ p.1 p.2 = _
      rw [pushPacketDyn_ok pol c recs p.1 p.2 hlen]
    rw [hstep, ih ((c + 1) % 2 ^ 32) (recs ++ encodeRecord pol p) hv']
    rw [Nat.mod_add_mod, encodeRecords_cons, List.append_assoc]
    have e2 : c + 1 + rest.length = c + (p :: rest).length := by
      simp
      omega
    rw [e2]

/-- The canonical shape of a freshly built dynamic batch: the wrapped
count followed by the concatenated records. -/
lemma buildDyn_eq (pol : LayoutPolicy) (ps : List (Nat × List Nat))
    (hv : ∀ p ∈ ps, p.2.length ≤ 65535) :
    buildDyn pol ps
      = (none, ⟨leBytes 4 (ps.length % 2 ^ 32) ++ encodeRecords pol ps⟩) := by
  have hinit : dynInit = ⟨leBytes 4 0 ++ []⟩ := rfl
  unfold buildDyn
  rw [hinit, buildDyn_from pol ps 0 [] hv]
  simp

/-- Iterating a freshly built batch visits exactly the writer-side record
offsets and reads back every pushed record. -/
lemma built_decode (pol : LayoutPolicy) (ps : List (Nat × List Nat))
    (hv : ∀ p ∈ ps, p.2.length ≤ 65535) (hn : ps.length < 2 ^ 32) :
    PacketListRef.length (leBytes 4 (ps.length % 2 ^ 32) ++ encodeRecords pol ps)
        = ps.length ∧
    PacketListRef.iterOffsets pol
        (leBytes 4 (ps.length % 2 ^ 32) ++ encodeRecords pol ps)
        = recOffsetsFrom pol 4 ps ∧
    List.Forall₂
      (recordMatches (leBytes 4 (ps.length % 2 ^ 32) ++ encodeRecords pol ps))
      (recOffsetsFrom pol 4 ps) ps := by
  set buf := leBytes 4 (ps.length % 2 ^ 32) ++ encodeRecords pol ps with hbuf
  have hlen : PacketListRef.length buf = ps.length := by
    have h := readLE_at buf (encodeRecords pol ps) 0 4 (ps.length % 2 ^ 32)
      (by rw [List.drop_zero])
    rw [show (256 : Nat) ^ 4 = 2 ^ 32 by norm_num,
      Nat.mod_mod_of_dvd _ dvd_rfl, Nat.mod_eq_of_lt hn] at h
    exact h
  have e : buf = leBytes 4 (ps.length % 2 ^ 32) ++ (encodeRecords pol ps ++ []) := by
    simp [hbuf]
  have hw := iter_walk pol [] ps (leBytes 4 (ps.length % 2 ^ 32)) hv
    (fun _ => by simp)
  rw [length_leBytes, ← e] at hw
  refine ⟨hlen, ?_, hw.2⟩
  unfold PacketListRef.iterOffsets
  rw [hlen]
  exact hw.1

/-! ### `Forall₂` plumbing -/

lemma forall₂_map_eq {α β γ : Type} {f : α → γ} {g : β → γ} :
    ∀ {l₁ : List α} {l₂ : List β},
      List.Forall₂ (fun a b => f a = g b) l₁ l₂ → l₁.map f = l₂.map g := by
  intro l₁ l₂ h
  induction h with
  | nil => rfl
  | cons hab _ ih => simp [hab, ih]

lemma getElem?_writeBytes_lt (buf bs : List Nat) (off i : Nat)
    (h1 : i < off) (h2 : i < buf.length) :
    (writeBytes buf off bs)[i]? = buf[i]? := by
  unfold writeBytes
  rw [List.append_assoc, List.getElem?_append,
    if_pos (show i < (buf.take off).length by rw [List.length_take]; omega),
    List.getElem?_take, if_pos h1]

lemma getElem?_writeBytes_ge (buf bs : List Nat) (off i : Nat)
    (h1 : off + bs.length ≤ i) (h2 : off + bs.length ≤ buf.length) :
    (writeBytes buf off bs)[i]? = buf[i]? := by
  unfold writeBytes
  have hl : (buf.take off ++ bs).length = off + bs.length := by
    rw [List.length_append, List.length_take]
    omega
  have h3 : (buf.take off ++ bs).length ≤ i := by rw [hl]; exact h1
  rw [List.getElem?_append_right h3, hl, List.getElem?_drop]
  congr 1
  omega

/-- The field correspondence of a built batch, independent of the value
of the count header (only the records after the 4 header bytes matter). -/
lemma built_matches (pol : LayoutPolicy) (ps : List (Nat × List Nat))
    (hv : ∀ p ∈ ps, p.2.length ≤ 65535) :
    List.Forall₂
      (recordMatches (leBytes 4 (ps.length % 2 ^ 32) ++ encodeRecords pol ps))
      (recOffsetsFrom pol 4 ps) ps := by
  have e : leBytes 4 (ps.length % 2 ^ 32) ++ encodeRecords pol ps
      = leBytes 4 (ps.length % 2 ^ 32) ++ (encodeRecords pol ps ++ []) := by
    simp
  have hw := iter_walk pol [] ps (leBytes 4 (ps.length % 2 ^ 32)) hv
    (fun _ => by simp)
  rw [length_leBytes, ← e] at hw
  exact hw.2

/-- Decoding a freshly built dynamic batch through the iterator yields
exactly the pushed `(timestamp, data)` pairs. -/
lemma decode_pairs (pol : LayoutPolicy) (ps : List (Nat × List Nat))
    (hv : ∀ p ∈ ps, p.1 < 2 ^ 64 ∧ p.2.length ≤ 65535)
    (hn : ps.length < 2 ^ 32) :
    ((PacketListRef.iterOffsets pol (buildDyn pol ps).2.data).map
        (fun o => (PacketRef.timestamp (buildDyn pol ps).2.data o,
                   PacketRef.data (buildDyn pol ps).2.data o))) = ps := by
  have hv2 : ∀ p ∈ ps, p.2.length ≤ 65535 := fun p hp => (hv p hp).2
  have hb := buildDyn_eq pol ps hv2
  have hd := built_decode pol ps hv2 hn
  rw [hb]
  show ((PacketListRef.iterOffsets pol
      (leBytes 4 (ps.length % 2 ^ 32) ++ encodeRecords pol ps)).map _) = ps
  rw [hd.2.1]
  have hpair : List.Forall₂
      (fun o p => (PacketRef.timestamp
          (leBytes 4 (ps.length % 2 ^ 32) ++ encodeRecords pol ps) o,
        PacketRef.data
          (leBytes 4 (ps.length % 2 ^ 32) ++ encodeRecords pol ps) o)
        = ((p : Nat × List Nat).1 % 2 ^ 64, p.2))
      (recOffsetsFrom pol 4 ps) ps :=
    hd.2.2.imp (fun o p hm => Prod.ext hm.1 hm.2.2)
  rw [forall₂_map_eq hpair]
  have : ∀ p ∈ ps, ((p : Nat × List Nat).1 % 2 ^ 64, p.2) = p := by
    intro p hp
    exact Prod.ext (Nat.mod_eq_of_lt (hv p hp).1) rfl
  rw [List.map_congr_left this]
  simp

/-! ### The 2^32 wrap of the count header -/

lemma length_built (pol : LayoutPolicy) (ps : List (Nat × List Nat)) :
    PacketListRef.length (leBytes 4 (ps.length % 2 ^ 32) ++ encodeRecords pol ps)
      = ps.length % 2 ^ 32 := by
  have h := readLE_at _ (encodeRecords pol ps) 0 4 (ps.length % 2 ^ 32)
    (by rw [List.drop_zero])
  rw [show (256 : Nat) ^ 4 = 2 ^ 32 by norm_num,
    Nat.mod_mod_of_dvd _ dvd_rfl] at h
  exact h

lemma wrap_built : buildDyn .packed (List.replicate (2 ^ 32) (0, ([] : List Nat)))
    = (none, ⟨leBytes 4 0
        ++ encodeRecords .packed (List.replicate (2 ^ 32) (0, []))⟩) := by
  have hv : ∀ p ∈ List.replicate (2 ^ 32) ((0 : Nat), ([] : List Nat)),
      p.2.length ≤ 65535 := by
    intro p hp
    rw [List.eq_of_mem_replicate hp]
    simp
  have hb := buildDyn_eq .packed _ hv
  rw [List.length_replicate, Nat.mod_self] at hb
  exact hb

lemma wrap_header :
    PacketListRef.length
      (buildDyn .packed (List.replicate (2 ^ 32) (0, ([] : List Nat)))).2.data = 0 := by
  have hv : ∀ p ∈ List.replicate (2 ^ 32) ((0 : Nat), ([] : List Nat)),
      p.2.length ≤ 65535 := by
    intro p hp
    rw [List.eq_of_mem_replicate hp]
    simp
  rw [buildDyn_eq .packed _ hv]
  show PacketListRef.length
    (leBytes 4 ((List.replicate (2 ^ 32) ((0 : Nat), ([] : List Nat))).length % 2 ^ 32)
      ++ encodeRecords .packed (List.replicate (2 ^ 32) (0, []))) = 0
  rw [length_built, List.length_replicate, Nat.mod_self]

lemma wrap_decoded_nil :
    PacketListRef.iterOffsets .packed
      (buildDyn .packed (List.replicate (2 ^ 32) (0, ([] : List Nat)))).2.data = [] := by
  unfold PacketListRef.iterOffsets
  rw [wrap_header]
  rfl

lemma length_encodeRecords_replicate (n : Nat) :
    (encodeRecords .packed (List.replicate n ((0 : Nat), ([] : List Nat)))).length
      = n * 10 := by
  induction n with
  | zero => rfl
  | succ n ih =>
    rw [List.replicate_succ, encodeRecords_cons, List.length_append, ih,
      length_encodeRecord]
    show padReq .packed (10 + 0) + n * 10 = (n + 1) * 10
    simp [padReq]
    omega

/-! ### The same development with the uninitialised bytes kept abstract

Nothing the encoder writes depends on the value of the bytes that
`reserve` + `set_len` expose; the following lemmas repeat the build/
decode correspondence with that value an explicit parameter `fill`, so
that round-trip statements can be shown independent of it. -/

lemma length_encodeRecordFill (fill : Nat) (pol : LayoutPolicy)
    (p : Nat × List Nat) :
    (encodeRecordFill fill pol p).length = padReq pol (10 + p.2.length) := by
  have h := le_padReq pol (10 + p.2.length)
  simp [encodeRecordFill]
  omega

lemma encodeRecordsFill_cons (fill : Nat) (pol : LayoutPolicy)
    (p : Nat × List Nat) (ps : List (Nat × List Nat)) :
    encodeRecordsFill fill pol (p :: ps)
      = encodeRecordFill fill pol p ++ encodeRecordsFill fill pol ps := by
  simp [encodeRecordsFill]

lemma fields_at_fill (fill : Nat) (pol : LayoutPolicy) (pre tail : List Nat)
    (ts : Nat) (pkt : List Nat) (hlen : pkt.length ≤ 65535)
    (halign : pol = .aligned4 → 4 ∣ pre.length) :
    PacketRef.timestamp (pre ++ (encodeRecordFill fill pol (ts, pkt) ++ tail))
        pre.length = ts % 2 ^ 64 ∧
    PacketRef.data_length (pre ++ (encodeRecordFill fill pol (ts, pkt) ++ tail))
        pre.length = pkt.length ∧
    PacketRef.data (pre ++ (encodeRecordFill fill pol (ts, pkt) ++ tail))
        pre.length = pkt ∧
    PacketRef.next pol (pre ++ (encodeRecordFill fill pol (ts, pkt) ++ tail))
        pre.length = pre.length + padReq pol (10 + pkt.length) := by
  set pad := List.replicate (padReq pol (10 + pkt.length) - (10 + pkt.length)) fill
    with hpad
  set buf := pre ++ (encodeRecordFill fill pol (ts, pkt) ++ tail) with hbuf
  have hdrop0 : buf.drop pre.length
      = leBytes 8 ts ++ (leBytes 2 pkt.length ++ (pkt ++ (pad ++ tail))) := by
    rw [hbuf, List.drop_left]
    simp [encodeRecordFill, List.append_assoc, hpad]
  have hdrop8 : buf.drop (pre.length + 8)
      = leBytes 2 pkt.length ++ (pkt ++ (pad ++ tail)) := by
    rw [drop_add, hdrop0, List.drop_left' (length_leBytes 8 ts)]
  have hdrop10 : buf.drop (pre.length + 10) = pkt ++ (pad ++ tail) := by
    have e : pre.length + 10 = pre.length + 8 + 2 := by omega
    rw [e, drop_add, hdrop8, List.drop_left' (length_leBytes 2 pkt.length)]
  have hts : PacketRef.timestamp buf pre.length = ts % 2 ^ 64 := by
    have h := readLE_at buf _ pre.length 8 ts hdrop0
    rw [show (256 : Nat) ^ 8 = 2 ^ 64 by norm_num] at h
    exact h
  have hdl : PacketRef.data_length buf pre.length = pkt.length := by
    have h := readLE_at buf _ (pre.length + 8) 2 pkt.length hdrop8
    rw [show (256 : Nat) ^ 2 = 65536 by norm_num,
      Nat.mod_eq_of_lt (by omega)] at h
    exact h
  have hdata : PacketRef.data buf pre.length = pkt := by
    unfold PacketRef.data
    rw [hdl, hdrop10, List.take_left]
  refine ⟨hts, hdl, hdata, ?_⟩
  cases pol with
  | packed =>
    simp only [PacketRef.next, hdl, padReq]
    omega
  | aligned4 =>
    simp only [PacketRef.next, hdl, padReq]
    rw [Nat.add_assoc, alignUp4_add _ (halign rfl)]

lemma iter_walk_fill (fill : Nat) (pol : LayoutPolicy) (tail : List Nat) :
    ∀ (ps : List (Nat × List Nat)) (pre : List Nat),
      (∀ p ∈ ps, p.2.length ≤ 65535) →
      (pol = .aligned4 → 4 ∣ pre.length) →
      iterSteps pol (pre ++ (encodeRecordsFill fill pol ps ++ tail))
          ps.length pre.length = recOffsetsFrom pol pre.length ps ∧
      List.Forall₂
        (recordMatches (pre ++ (encodeRecordsFill fill pol ps ++ tail)))
        (recOffsetsFrom pol pre.length ps) ps := by
  intro ps
  induction ps with
  | nil =>
    intro pre hv halign
    exact ⟨rfl, List.Forall₂.nil⟩
  | cons p rest ih =>
    intro pre hv halign
    have hlen : p.2.length ≤ 65535 := hv p (List.mem_cons_self p rest)
    have hv' : ∀ q ∈ rest, q.2.length ≤ 65535 :=
      fun q hq => hv q (List.mem_cons_of_mem p hq)
    have ebuf : pre ++ (encodeRecordsFill fill pol (p :: rest) ++ tail)
        = pre ++ (encodeRecordFill fill pol p
            ++ (encodeRecordsFill fill pol rest ++ tail)) := by
      rw [encodeRecordsFill_cons, List.append_assoc]
    have ebuf2 : pre ++ (encodeRecordsFill fill pol (p :: rest) ++ tail)
        = (pre ++ encodeRecordFill fill pol p)
            ++ (encodeRecordsFill fill pol rest ++ tail) := by
      rw [ebuf, List.append_assoc]
    have hfields := fields_at_fill fill pol pre
      (encodeRecordsFill fill pol rest ++ tail) p.1 p.2 hlen halign
    rw [← ebuf] at hfields
    have halign' : pol = .aligned4
        → 4 ∣ (pre ++ encodeRecordFill fill pol p).length := by
      intro hp
      rw [List.length_append, length_encodeRecordFill, hp]
      exact Nat.dvd_add (halign hp) (dvd_alignUp4 _)
    have hpre' : (pre ++ encodeRecordFill fill pol p).length
        = pre.length + padReq pol (10 + p.2.length) := by
      rw [List.length_append, length_encodeRecordFill]
    have ihx := ih (pre ++ encodeRecordFill fill pol p) hv' halign'
    rw [← ebuf2, hpre'] at ihx
    constructor
    · show (pre.length :: iterSteps pol _ rest.length
          (PacketRef.next pol _ pre.length)) = _
      rw [hfields.2.2.2, ihx.1]
      rfl
    · exact List.Forall₂.cons
        ⟨hfields.1, hfields.2.1, hfields.2.2.1⟩ ihx.2

lemma pushPacketDynFill_ok (fill : Nat) (pol : LayoutPolicy) (c : Nat)
    (recs : List Nat) (ts : Nat) (pkt : List Nat) (h : pkt.length ≤ 65535) :
    pushPacketDynFill fill pol ⟨leBytes 4 c ++ recs⟩ ts pkt
      = (none, ⟨leBytes 4 ((c + 1) % 2 ^ 32)
          ++ (recs ++ encodeRecordFill fill pol (ts, pkt))⟩) := by
  have hpr := le_padReq pol (10 + pkt.length)
  have hble : (leBytes 8 ts ++ leBytes 2 pkt.length ++ pkt).length
      ≤ padReq pol (10 + pkt.length) := by
    simp only [List.length_append, length_leBytes]
    omega
  have hlen10 : (leBytes 8 ts ++ leBytes 2 pkt.length ++ pkt).length
      = 10 + pkt.length := by
    simp only [List.length_append, length_leBytes]
  have hrec : (leBytes 8 ts ++ leBytes 2 pkt.length ++ pkt)
      ++ List.replicate (padReq pol (10 + pkt.length) - (10 + pkt.length)) fill
      = encodeRecordFill fill pol (ts, pkt) := by
    simp [encodeRecordFill, List.append_assoc]
  simp only [pushPacketDynFill, DynStorage.requestFill, if_pos h]
  rw [writeBytes_at_end _ _ _ _ hble, hlen10,
    List.append_assoc (leBytes 4 c) recs, incrCount_shape, hrec]

lemma dynInitFill_eq (fill : Nat) : dynInitFill fill = ⟨leBytes 4 0 ++ []⟩ := by
  show (⟨writeBytes ([] ++ List.replicate 4 fill) ([] : List Nat).length
      (leBytes 4 0)⟩ : DynStorage) = _
  unfold writeBytes
  congr 1

lemma buildDynFill_from (fill : Nat) (pol : LayoutPolicy) :
    ∀ (ps : List (Nat × List Nat)) (c : Nat) (recs : List Nat),
      (∀ p ∈ ps, p.2.length ≤ 65535) →
      List.foldl (buildStepDynFill fill pol) (none, ⟨leBytes 4 c ++ recs⟩) ps
        = (none, ⟨leBytes 4 ((c + ps.length) % 2 ^ 32)
            ++ (recs ++ encodeRecordsFill fill pol ps)⟩) := by
  intro ps
  induction ps with
  | nil =>
    intro c recs hv
    simp only [List.foldl_nil, encodeRecordsFill, List.map_nil,
      List.flatten_nil, List.append_nil, List.length_nil, Nat.add_zero]
    rw [← show (256 : Nat) ^ 4 = 2 ^ 32 by norm_num, leBytes_mod]
  | cons p rest ih =>
    intro c recs hv
    have hlen : p.2.length ≤ 65535 := hv p (List.mem_cons_self p rest)
    have hv' : ∀ q ∈ rest, q.2.length ≤ 65535 :=
      fun q hq => hv q (List.mem_cons_of_mem p hq)
    rw [List.foldl_cons]
    have hstep : buildStepDynFill fill pol (none, ⟨leBytes 4 c ++ recs⟩) p
        = (none, ⟨leBytes 4 ((c + 1) % 2 ^ 32)
            ++ (recs ++ encodeRecordFill fill pol p)⟩) := by
      show pushPacketDynFill fill pol ⟨leBytes 4 c ++ recs⟩ p.1 p.2 = _
      rw [pushPacketDynFill_ok fill pol c recs p.1 p.2 hlen]
    rw [hstep, ih ((c + 1) % 2 ^ 32) (recs ++ encodeRecordFill fill pol p) hv']
    rw [Nat.mod_add_mod, encodeRecordsFill_cons, List.append_assoc]
    have e2 : c + 1 + rest.length = c + (p :: rest).length := by
      simp
      omega
    rw [e2]

lemma buildDynFill_eq (fill : Nat) (pol : LayoutPolicy)
    (ps : List (Nat × List Nat)) (hv : ∀ p ∈ ps, p.2.length ≤ 65535) :
    buildDynFill fill pol ps
      = (none, ⟨leBytes 4 (ps.length % 2 ^ 32)
          ++ encodeRecordsFill fill pol ps⟩) := by
  unfold buildDynFill
  rw [dynInitFill_eq, buildDynFill_from fill pol ps 0 [] hv]
  simp

lemma length_built_fill (fill : Nat) (pol : LayoutPolicy)
    (ps : List (Nat × List Nat)) :
    PacketListRef.length
      (leBytes 4 (ps.length % 2 ^ 32) ++ encodeRecordsFill fill pol ps)
      = ps.length % 2 ^ 32 := by
  have h := readLE_at _ (encodeRecordsFill fill pol ps) 0 4 (ps.length % 2 ^ 32)
    (by rw [List.drop_zero])
  rw [show (256 : Nat) ^ 4 = 2 ^ 32 by norm_num,
    Nat.mod_mod_of_dvd _ dvd_rfl] at h
  exact h

lemma built_decode_fill (fill : Nat) (pol : LayoutPolicy)
    (ps : List (Nat × List Nat)) (hv : ∀ p ∈ ps, p.2.length ≤ 65535)
    (hn : ps.length < 2 ^ 32) :
    PacketListRef.length
        (leBytes 4 (ps.length % 2 ^ 32) ++ encodeRecordsFill fill pol ps)
        = ps.length ∧
    PacketListRef.iterOffsets pol
        (leBytes 4 (ps.length % 2 ^ 32) ++ encodeRecordsFill fill pol ps)
        = recOffsetsFrom pol 4 ps ∧
    List.Forall₂
      (recordMatches
        (leBytes 4 (ps.length % 2 ^ 32) ++ encodeRecordsFill fill pol ps))
      (recOffsetsFrom pol 4 ps) ps := by
  set buf := leBytes 4 (ps.length % 2 ^ 32) ++ encodeRecordsFill fill pol ps
    with hbuf
  have hlen : PacketListRef.length buf = ps.length := by
    rw [hbuf, length_built_fill, Nat.mod_eq_of_lt hn]
  have e : buf = leBytes 4 (ps.length % 2 ^ 32)
      ++ (encodeRecordsFill fill pol ps ++ []) := by
    simp [hbuf]
  have hw := iter_walk_fill fill pol [] ps (leBytes 4 (ps.length % 2 ^ 32)) hv
    (fun _ => by simp)
  rw [length_leBytes, ← e] at hw
  refine ⟨hlen, ?_, hw.2⟩
  unfold PacketListRef.iterOffsets
  rw [hlen]
  exact hw.1

lemma decodedPairs_built (fill : Nat) (pol : LayoutPolicy)
    (ps : List (Nat × List Nat))
    (hv : ∀ p ∈ ps, p.1 < 2 ^ 64 ∧ p.2.length ≤ 65535)
    (hn : ps.length < 2 ^ 32) :
    decodedPairs pol (buildDynFill fill pol ps).2.data = ps := by
  have hv2 : ∀ p ∈ ps, p.2.length ≤ 65535 := fun p hp => (hv p hp).2
  have hb := buildDynFill_eq fill pol ps hv2
  have hd := built_decode_fill fill pol ps hv2 hn
  unfold decodedPairs
  rw [hb]
  show ((PacketListRef.iterOffsets pol
      (leBytes 4 (ps.length % 2 ^ 32) ++ encodeRecordsFill fill pol ps)).map _)
      = ps
  rw [hd.2.1]
  have hpair : List.Forall₂
      (fun o p => (PacketRef.timestamp
          (leBytes 4 (ps.length % 2 ^ 32) ++ encodeRecordsFill fill pol ps) o,
        PacketRef.data
          (leBytes 4 (ps.length % 2 ^ 32) ++ encodeRecordsFill fill pol ps) o)
        = ((p : Nat × List Nat).1 % 2 ^ 64, p.2))
      (recOffsetsFrom pol 4 ps) ps :=
    hd.2.2.imp (fun o p hm => Prod.ext hm.1 hm.2.2)
  rw [forall₂_map_eq hpair]
  have : ∀ p ∈ ps, ((p : Nat × List Nat).1 % 2 ^ 64, p.2) = p := by
    intro p hp
    exact Prod.ext (Nat.mod_eq_of_lt (hv p hp).1) rfl
  rw [List.map_congr_left this]
  simp

/-- Under `packed` every byte of a record is written by the encoder, so
its bytes do not depend on the uninitialised value at all. -/
lemma encodeRecordFill_packed (f1 f2 : Nat) (p : Nat × List Nat) :
    encodeRecordFill f1 .packed p = encodeRecordFill f2 .packed p := by
  simp [encodeRecordFill, padReq]

lemma encodeRecordsFill_packed (f1 f2 : Nat) (ps : List (Nat × List Nat)) :
    encodeRecordsFill f1 .packed ps = encodeRecordsFill f2 .packed ps := by
  unfold encodeRecordsFill
  rw [List.map_congr_left (fun p _ => encodeRecordFill_packed f1 f2 p)]

/-- The batch length never depends on the uninitialised value: only how
many padding bytes there are is determined, not what they hold. -/
lemma length_encodeRecordsFill_indep (f1 f2 : Nat) (pol : LayoutPolicy) :
    ∀ ps : List (Nat × List Nat),
      (encodeRecordsFill f1 pol ps).length = (encodeRecordsFill f2 pol ps).length
  | [] => rfl
  | p :: rest => by
    rw [encodeRecordsFill_cons, encodeRecordsFill_cons, List.length_append,
      List.length_append, length_encodeRecordFill, length_encodeRecordFill,
      length_encodeRecordsFill_indep f1 f2 pol rest]

/-- `buildDyn` is the `fill = 0` instance of the parameterised builder. -/
lemma buildDynFill_zero (pol : LayoutPolicy) (ps : List (Nat × List Nat)) :
    buildDynFill 0 pol ps = buildDyn pol ps := rfl

/-! ### Claims -/

/-- C1 (amended: for sequences of fewer than 2^32 pushes — beyond that
the `u32` count header wraps and the iterator yields too few views): for
every sequence of `push_packet` calls `(timestamp_i, data_i)` with
`data_i.length ≤ 65535` on a freshly constructed builder, iterating the
view obtained from that builder yields exactly as many record views as
pushes, in push order, where the i-th view's `timestamp()` equals
`timestamp_i`, its `data_length()` equals `data_i.length` and its
`data()` equals `data_i` byte for byte. -/
theorem push_iter_roundtrip (pol : LayoutPolicy) (ps : List (Nat × List Nat))
    (hv : ∀ p ∈ ps, p.1 < 2 ^ 64 ∧ p.2.length ≤ 65535)
    (hn : ps.length < 2 ^ 32) :
    (buildDyn pol ps).1 = none ∧
    ((PacketListRef.iterOffsets pol (buildDyn pol ps).2.data).map
        (fun o => (PacketRef.timestamp (buildDyn pol ps).2.data o,
                   PacketRef.data (buildDyn pol ps).2.data o))) = ps ∧
    ((PacketListRef.iterOffsets pol (buildDyn pol ps).2.data).map
        (fun o => PacketRef.data_length (buildDyn pol ps).2.data o))
      = ps.map (fun p => p.2.length) := by
  have hv2 : ∀ p ∈ ps, p.2.length ≤ 65535 := fun p hp => (hv p hp).2
  have hb := buildDyn_eq pol ps hv2
  have hd := built_decode pol ps hv2 hn
  refine ⟨by rw [hb], decode_pairs pol ps hv hn, ?_⟩
  rw [hb]
  show ((PacketListRef.iterOffsets pol
      (leBytes 4 (ps.length % 2 ^ 32) ++ encodeRecords pol ps)).map _) = _
  rw [hd.2.1]
  exact forall₂_map_eq (hd.2.2.imp (fun o p hm => hm.2.1))

/-- C1 witness: a concrete two-push run, hypotheses discharged. -/
theorem push_iter_roundtrip_witness :
    (∀ p ∈ ([(1, [7]), (2, [8, 9])] : List (Nat × List Nat)),
        p.1 < 2 ^ 64 ∧ p.2.length ≤ 65535) ∧
    ([(1, [7]), (2, [8, 9])] : List (Nat × List Nat)).length < 2 ^ 32 ∧
    ((buildDyn .packed [(1, [7]), (2, [8, 9])]).1 = none ∧
     ((PacketListRef.iterOffsets .packed
          (buildDyn .packed [(1, [7]), (2, [8, 9])]).2.data).map
        (fun o => (PacketRef.timestamp
            (buildDyn .packed [(1, [7]), (2, [8, 9])]).2.data o,
          PacketRef.data (buildDyn .packed [(1, [7]), (2, [8, 9])]).2.data o)))
        = [(1, [7]), (2, [8, 9])] ∧
     ((PacketListRef.iterOffsets .packed
          (buildDyn .packed [(1, [7]), (2, [8, 9])]).2.data).map
        (fun o => PacketRef.data_length
            (buildDyn .packed [(1, [7]), (2, [8, 9])]).2.data o))
        = ([(1, [7]), (2, [8, 9])] : List (Nat × List Nat)).map
            (fun p => p.2.length)) :=
  ⟨by decide, by decide,
    push_iter_roundtrip .packed [(1, [7]), (2, [8, 9])] (by decide) (by decide)⟩

/-- C1 counterexample: after 2^32 pushes (all payloads empty, `packed`
policy) the count header has wrapped to 0, so iterating the view yields 0
record views although there were 2^32 pushes. -/
theorem push_iter_count_wraps :
    (PacketListRef.iterOffsets .packed
        (buildDyn .packed (List.replicate (2 ^ 32) (0, ([] : List Nat)))).2.data).length
      = 0 ∧
    (List.replicate (2 ^ 32) ((0 : Nat), ([] : List Nat))).length = 2 ^ 32 ∧
    (0 : Nat) ≠ 2 ^ 32 := by
  refine ⟨?_, List.length_replicate _ _, by norm_num⟩
  rw [wrap_decoded_nil]
  rfl

/-- C2 (amended: for every N < 2^32 — the 4-byte header stores N mod
2^32): after every sequence of N successful `push_packet` calls on a
builder, including N = 0 immediately after construction, the 4-byte count
header equals N and the list view reports `length() == N`. -/
theorem count_header_eq_pushes (pol : LayoutPolicy) (ps : List (Nat × List Nat))
    (hv : ∀ p ∈ ps, p.2.length ≤ 65535) (hn : ps.length < 2 ^ 32) :
    (buildDyn pol ps).1 = none ∧
    (buildDyn pol ps).2.data.take 4 = leBytes 4 ps.length ∧
    PacketListRef.length (buildDyn pol ps).2.data = ps.length := by
  have hb := buildDyn_eq pol ps hv
  have hd := built_decode pol ps hv hn
  refine ⟨by rw [hb], ?_, by rw [hb]; exact hd.1⟩
  rw [hb]
  show (leBytes 4 (ps.length % 2 ^ 32) ++ encodeRecords pol ps).take 4 = _
  rw [List.take_left' (length_leBytes 4 _), Nat.mod_eq_of_lt hn]

/-- C2 witness: a concrete empty run (N = 0) and the hypotheses for a
one-push run, discharged. -/
theorem count_header_eq_pushes_witness :
    (∀ p ∈ ([] : List (Nat × List Nat)), p.2.length ≤ 65535) ∧
    ([] : List (Nat × List Nat)).length < 2 ^ 32 ∧
    ((buildDyn .aligned4 ([] : List (Nat × List Nat))).1 = none ∧
     (buildDyn .aligned4 ([] : List (Nat × List Nat))).2.data.take 4
        = leBytes 4 ([] : List (Nat × List Nat)).length ∧
     PacketListRef.length (buildDyn .aligned4 ([] : List (Nat × List Nat))).2.data
        = ([] : List (Nat × List Nat)).length) :=
  ⟨by decide, by decide,
    count_header_eq_pushes .aligned4 [] (by decide) (by decide)⟩

/-- C2 counterexample: after 2^32 successful pushes the count header
reads back 0, not 2^32. -/
theorem count_header_wraps :
    PacketListRef.length
      (buildDyn .packed (List.replicate (2 ^ 32) (0, ([] : List Nat)))).2.data = 0 ∧
    (List.replicate (2 ^ 32) ((0 : Nat), ([] : List Nat))).length = 2 ^ 32 ∧
    (0 : Nat) ≠ 2 ^ 32 :=
  ⟨wrap_header, List.length_replicate _ _, by norm_num⟩

/-- C5: every successful `push_packet` writes its record as timestamp
(8 bytes at record offset 0), then length (2 bytes at record offset 8),
then the payload (from record offset 10), in the fixed byte order of the
build target, with the first record at batch offset 4 immediately after
the count header; and at every record offset, `data()` is a slice of
exactly `data_length()` bytes starting 10 bytes after the record start. -/
theorem push_packet_record_layout (pol : LayoutPolicy)
    (ps : List (Nat × List Nat)) (hv : ∀ p ∈ ps, p.2.length ≤ 65535) :
    (buildDyn pol ps).1 = none ∧
    (buildDyn pol ps).2.data
      = leBytes 4 (ps.length % 2 ^ 32)
          ++ (ps.map (fun p => leBytes 8 p.1 ++ leBytes 2 p.2.length ++ p.2
              ++ List.replicate
                  (padReq pol (10 + p.2.length) - (10 + p.2.length)) 0)).flatten ∧
    (∀ o p, (o, p) ∈ (recOffsetsFrom pol 4 ps).zip ps →
        PacketRef.data (buildDyn pol ps).2.data o = p.2 ∧
        (PacketRef.data (buildDyn pol ps).2.data o).length
          = PacketRef.data_length (buildDyn pol ps).2.data o) := by
  have hb := buildDyn_eq pol ps hv
  have hm := built_matches pol ps hv
  refine ⟨by rw [hb], by rw [hb]; rfl, ?_⟩
  intro o p hop
  have h := (List.forall₂_iff_zip.mp hm).2 hop
  rw [hb]
  constructor
  · show PacketRef.data
        (leBytes 4 (ps.length % 2 ^ 32) ++ encodeRecords pol ps) o = p.2
    exact h.2.2
  · show (PacketRef.data
        (leBytes 4 (ps.length % 2 ^ 32) ++ encodeRecords pol ps) o).length
      = PacketRef.data_length
          (leBytes 4 (ps.length % 2 ^ 32) ++ encodeRecords pol ps) o
    rw [h.2.2, h.2.1]

/-- C5 witness: a concrete one-push aligned batch, hypothesis discharged. -/
theorem push_packet_record_layout_witness :
    (∀ p ∈ ([(3, [1, 2, 3])] : List (Nat × List Nat)), p.2.length ≤ 65535) ∧
    ((buildDyn .aligned4 [(3, [1, 2, 3])]).1 = none ∧
     (buildDyn .aligned4 [(3, [1, 2, 3])]).2.data
       = leBytes 4 (([(3, [1, 2, 3])] : List (Nat × List Nat)).length % 2 ^ 32)
           ++ (([(3, [1, 2, 3])] : List (Nat × List Nat)).map
              (fun p => leBytes 8 p.1 ++ leBytes 2 p.2.length ++ p.2
                ++ List.replicate
                    (padReq .aligned4 (10 + p.2.length) - (10 + p.2.length)) 0)).flatten ∧
     (∀ o p, (o, p) ∈ (recOffsetsFrom .aligned4 4
          ([(3, [1, 2, 3])] : List (Nat × List Nat))).zip [(3, [1, 2, 3])] →
        PacketRef.data (buildDyn .aligned4 [(3, [1, 2, 3])]).2.data o = p.2 ∧
        (PacketRef.data (buildDyn .aligned4 [(3, [1, 2, 3])]).2.data o).length
          = PacketRef.data_length
              (buildDyn .aligned4 [(3, [1, 2, 3])]).2.data o)) :=
  ⟨by decide, push_packet_record_layout .aligned4 [(3, [1, 2, 3])] (by decide)⟩

/-- C6: for a batch of two pushes with payload lengths `d1.length` and
`d2.length`, under `Aligned4` the iterator visits offsets
`[4, 4 + alignUp4 (10 + d1.length)]` — the second record's offset from
the batch base a multiple of 4 — and under `Packed` it visits
`[4, 4 + (10 + d1.length)]`, the second record starting immediately after
the first record's data with no gap. -/
theorem second_record_offset (ts1 ts2 : Nat) (d1 d2 : List Nat)
    (h1 : d1.length ≤ 65535) (h2 : d2.length ≤ 65535) :
    PacketListRef.iterOffsets .aligned4
        (buildDyn .aligned4 [(ts1, d1), (ts2, d2)]).2.data
      = [4, 4 + alignUp4 (10 + d1.length)] ∧
    (4 + alignUp4 (10 + d1.length)) % 4 = 0 ∧
    PacketListRef.iterOffsets .packed
        (buildDyn .packed [(ts1, d1), (ts2, d2)]).2.data
      = [4, 4 + (10 + d1.length)] := by
  have hv : ∀ p ∈ ([(ts1, d1), (ts2, d2)] : List (Nat × List Nat)),
      p.2.length ≤ 65535 := by
    intro p hp
    rcases List.mem_cons.mp hp with rfl | hp2
    · exact h1
    · rcases List.mem_cons.mp hp2 with rfl | hp3
      · exact h2
      · cases hp3
  have hn : ([(ts1, d1), (ts2, d2)] : List (Nat × List Nat)).length < 2 ^ 32 := by
    norm_num
  refine ⟨?_, ?_, ?_⟩
  · have hb := buildDyn_eq .aligned4 _ hv
    have hd := built_decode .aligned4 _ hv hn
    rw [hb]
    show PacketListRef.iterOffsets .aligned4
        (leBytes 4 (([(ts1, d1), (ts2, d2)] : List (Nat × List Nat)).length % 2 ^ 32)
          ++ encodeRecords .aligned4 [(ts1, d1), (ts2, d2)]) = _
    rw [hd.2.1]
    simp [recOffsetsFrom, padReq]
  · obtain ⟨k, hk⟩ := dvd_alignUp4 (10 + d1.length)
    rw [hk]
    omega
  · have hb := buildDyn_eq .packed _ hv
    have hd := built_decode .packed _ hv hn
    rw [hb]
    show PacketListRef.iterOffsets .packed
        (leBytes 4 (([(ts1, d1), (ts2, d2)] : List (Nat × List Nat)).length % 2 ^ 32)
          ++ encodeRecords .packed [(ts1, d1), (ts2, d2)]) = _
    rw [hd.2.1]
    simp [recOffsetsFrom, padReq]

/-- C6 witness: the spec's odd payload lengths 3 and 5, hypotheses
discharged. -/
theorem second_record_offset_witness :
    ([144, 64, 127] : List Nat).length ≤ 65535 ∧
    ([1, 2, 3, 4, 5] : List Nat).length ≤ 65535 ∧
    (PacketListRef.iterOffsets .aligned4
        (buildDyn .aligned4 [(0, [144, 64, 127]), (0, [1, 2, 3, 4, 5])]).2.data
      = [4, 4 + alignUp4 (10 + ([144, 64, 127] : List Nat).length)] ∧
    (4 + alignUp4 (10 + ([144, 64, 127] : List Nat).length)) % 4 = 0 ∧
    PacketListRef.iterOffsets .packed
        (buildDyn .packed [(0, [144, 64, 127]), (0, [1, 2, 3, 4, 5])]).2.data
      = [4, 4 + (10 + ([144, 64, 127] : List Nat).length)]) :=
  ⟨by decide, by decide,
    second_record_offset 0 0 [144, 64, 127] [1, 2, 3, 4, 5]
      (by decide) (by decide)⟩

/-- C8 (amended: for batches of fewer than 2^32 pushes, and with
byte-for-byte identity asserted only for the bytes the encoder writes):
decoding a freshly built batch via the iterator and re-encoding the
decoded `(timestamp, data)` pairs in order under the same layout policy
reproduces, whatever values `f1` and `f2` the uninitialised
`set_len`-exposed bytes of the two builds happened to hold
(`buildDynFill 0` is literally `buildDyn`, lemma `buildDynFill_zero`):
under `Packed` — where every byte of the batch is written — the whole
batch byte for byte; and under either policy the batch length, the
4-byte count header, the iterator's record offsets, and every record's
timestamp, length and payload bytes.  Under `Aligned4` the 0–3 padding
bytes per record are never written by the encoder, so their values are
not a program guarantee and are excluded. -/
theorem reencode_roundtrip (pol : LayoutPolicy) (f1 f2 : Nat)
    (ps : List (Nat × List Nat))
    (hv : ∀ p ∈ ps, p.1 < 2 ^ 64 ∧ p.2.length ≤ 65535)
    (hn : ps.length < 2 ^ 32) :
    (pol = .packed →
      (buildDynFill f2 pol
          (decodedPairs pol (buildDynFill f1 pol ps).2.data)).2.data
        = (buildDynFill f1 pol ps).2.data) ∧
    (buildDynFill f2 pol
        (decodedPairs pol (buildDynFill f1 pol ps).2.data)).2.data.length
      = (buildDynFill f1 pol ps).2.data.length ∧
    (buildDynFill f2 pol
        (decodedPairs pol (buildDynFill f1 pol ps).2.data)).2.data.take 4
      = (buildDynFill f1 pol ps).2.data.take 4 ∧
    PacketListRef.iterOffsets pol
        (buildDynFill f2 pol
          (decodedPairs pol (buildDynFill f1 pol ps).2.data)).2.data
      = PacketListRef.iterOffsets pol (buildDynFill f1 pol ps).2.data ∧
    (∀ o p, (o, p) ∈ (recOffsetsFrom pol 4 ps).zip ps →
      PacketRef.timestamp
          (buildDynFill f2 pol
            (decodedPairs pol (buildDynFill f1 pol ps).2.data)).2.data o
        = PacketRef.timestamp (buildDynFill f1 pol ps).2.data o ∧
      PacketRef.data_length
          (buildDynFill f2 pol
            (decodedPairs pol (buildDynFill f1 pol ps).2.data)).2.data o
        = PacketRef.data_length (buildDynFill f1 pol ps).2.data o ∧
      PacketRef.data
          (buildDynFill f2 pol
            (decodedPairs pol (buildDynFill f1 pol ps).2.data)).2.data o
        = PacketRef.data (buildDynFill f1 pol ps).2.data o) := by
  have hv2 : ∀ p ∈ ps, p.2.length ≤ 65535 := fun p hp => (hv p hp).2
  rw [decodedPairs_built f1 pol ps hv hn]
  have hb1 := buildDynFill_eq f1 pol ps hv2
  have hb2 := buildDynFill_eq f2 pol ps hv2
  have hd1 := built_decode_fill f1 pol ps hv2 hn
  have hd2 := built_decode_fill f2 pol ps hv2 hn
  rw [hb1, hb2]
  refine ⟨?_, ?_, ?_, ?_, ?_⟩
  · intro hp
    subst hp
    show leBytes 4 (ps.length % 2 ^ 32) ++ encodeRecordsFill f2 .packed ps
      = leBytes 4 (ps.length % 2 ^ 32) ++ encodeRecordsFill f1 .packed ps
    rw [encodeRecordsFill_packed f2 f1]
  · show (leBytes 4 (ps.length % 2 ^ 32) ++ encodeRecordsFill f2 pol ps).length
      = (leBytes 4 (ps.length % 2 ^ 32) ++ encodeRecordsFill f1 pol ps).length
    rw [List.length_append, List.length_append,
      length_encodeRecordsFill_indep f2 f1]
  · show (leBytes 4 (ps.length % 2 ^ 32) ++ encodeRecordsFill f2 pol ps).take 4
      = (leBytes 4 (ps.length % 2 ^ 32) ++ encodeRecordsFill f1 pol ps).take 4
    rw [List.take_left' (length_leBytes 4 _), List.take_left' (length_leBytes 4 _)]
  · show PacketListRef.iterOffsets pol
        (leBytes 4 (ps.length % 2 ^ 32) ++ encodeRecordsFill f2 pol ps)
      = PacketListRef.iterOffsets pol
        (leBytes 4 (ps.length % 2 ^ 32) ++ encodeRecordsFill f1 pol ps)
    rw [hd2.2.1, hd1.2.1]
  · intro o p hop
    have hm1 := (List.forall₂_iff_zip.mp hd1.2.2).2 hop
    have hm2 := (List.forall₂_iff_zip.mp hd2.2.2).2 hop
    refine ⟨?_, ?_, ?_⟩
    · show PacketRef.timestamp
          (leBytes 4 (ps.length % 2 ^ 32) ++ encodeRecordsFill f2 pol ps) o
        = PacketRef.timestamp
          (leBytes 4 (ps.length % 2 ^ 32) ++ encodeRecordsFill f1 pol ps) o
      rw [hm2.1, hm1.1]
    · show PacketRef.data_length
          (leBytes 4 (ps.length % 2 ^ 32) ++ encodeRecordsFill f2 pol ps) o
        = PacketRef.data_length
          (leBytes 4 (ps.length % 2 ^ 32) ++ encodeRecordsFill f1 pol ps) o
      rw [hm2.2.1, hm1.2.1]
    · show PacketRef.data
          (leBytes 4 (ps.length % 2 ^ 32) ++ encodeRecordsFill f2 pol ps) o
        = PacketRef.data
          (leBytes 4 (ps.length % 2 ^ 32) ++ encodeRecordsFill f1 pol ps) o
      rw [hm2.2.2, hm1.2.2]

/-- C8 witness: a concrete two-push round trip under `Aligned4` with
different uninitialised contents (0 and 1) in the two builds, hypotheses
discharged. -/
theorem reencode_roundtrip_witness :
    (∀ p ∈ ([(1, [7]), (2, [8, 9, 10])] : List (Nat × List Nat)),
        p.1 < 2 ^ 64 ∧ p.2.length ≤ 65535) ∧
    ([(1, [7]), (2, [8, 9, 10])] : List (Nat × List Nat)).length < 2 ^ 32 ∧
    ((LayoutPolicy.aligned4 = .packed →
      (buildDynFill 1 .aligned4
          (decodedPairs .aligned4
            (buildDynFill 0 .aligned4 [(1, [7]), (2, [8, 9, 10])]).2.data)).2.data
        = (buildDynFill 0 .aligned4 [(1, [7]), (2, [8, 9, 10])]).2.data) ∧
    (buildDynFill 1 .aligned4
        (decodedPairs .aligned4
          (buildDynFill 0 .aligned4 [(1, [7]), (2, [8, 9, 10])]).2.data)).2.data.length
      = (buildDynFill 0 .aligned4 [(1, [7]), (2, [8, 9, 10])]).2.data.length ∧
    (buildDynFill 1 .aligned4
        (decodedPairs .aligned4
          (buildDynFill 0 .aligned4 [(1, [7]), (2, [8, 9, 10])]).2.data)).2.data.take 4
      = (buildDynFill 0 .aligned4 [(1, [7]), (2, [8, 9, 10])]).2.data.take 4 ∧
    PacketListRef.iterOffsets .aligned4
        (buildDynFill 1 .aligned4
          (decodedPairs .aligned4
            (buildDynFill 0 .aligned4 [(1, [7]), (2, [8, 9, 10])]).2.data)).2.data
      = PacketListRef.iterOffsets .aligned4
          (buildDynFill 0 .aligned4 [(1, [7]), (2, [8, 9, 10])]).2.data ∧
    (∀ o p, (o, p) ∈ (recOffsetsFrom .aligned4 4
          ([(1, [7]), (2, [8, 9, 10])] : List (Nat × List Nat))).zip
            [(1, [7]), (2, [8, 9, 10])] →
      PacketRef.timestamp
          (buildDynFill 1 .aligned4
            (decodedPairs .aligned4
              (buildDynFill 0 .aligned4 [(1, [7]), (2, [8, 9, 10])]).2.data)).2.data o
        = PacketRef.timestamp
            (buildDynFill 0 .aligned4 [(1, [7]), (2, [8, 9, 10])]).2.data o ∧
      PacketRef.data_length
          (buildDynFill 1 .aligned4
            (decodedPairs .aligned4
              (buildDynFill 0 .aligned4 [(1, [7]), (2, [8, 9, 10])]).2.data)).2.data o
        = PacketRef.data_length
            (buildDynFill 0 .aligned4 [(1, [7]), (2, [8, 9, 10])]).2.data o ∧
      PacketRef.data
          (buildDynFill 1 .aligned4
            (decodedPairs .aligned4
              (buildDynFill 0 .aligned4 [(1, [7]), (2, [8, 9, 10])]).2.data)).2.data o
        = PacketRef.data
            (buildDynFill 0 .aligned4 [(1, [7]), (2, [8, 9, 10])]).2.data o)) :=
  ⟨by decide, by decide,
    reencode_roundtrip .aligned4 0 1 [(1, [7]), (2, [8, 9, 10])]
      (by decide) (by decide)⟩

/-- C8 counterexample: two failures of the original unqualified
byte-for-byte claim.  First, with 2^32 pushes the count header wraps to
0, the decode yields no records, and re-encoding gives the 4-byte empty
batch.  Second, under `Aligned4` even a single 3-byte push defeats byte
identity: the padding bytes are uninitialised memory the encoder never
writes, so a re-encode whose freshly exposed bytes happen to hold 1
instead of 0 differs from the original batch in the padding. -/
theorem reencode_roundtrip_wraps :
    ((buildDyn .packed ((PacketListRef.iterOffsets .packed
        (buildDyn .packed (List.replicate (2 ^ 32) (0, ([] : List Nat)))).2.data).map
        (fun o => (PacketRef.timestamp
            (buildDyn .packed (List.replicate (2 ^ 32) (0, ([] : List Nat)))).2.data o,
          PacketRef.data
            (buildDyn .packed (List.replicate (2 ^ 32) (0, ([] : List Nat)))).2.data o)))).2.data
      ≠ (buildDyn .packed (List.replicate (2 ^ 32) (0, ([] : List Nat)))).2.data) ∧
    ((buildDynFill 1 .aligned4
        (decodedPairs .aligned4 (buildDyn .aligned4 [(0, [1, 2, 3])]).2.data)).2.data
      ≠ (buildDyn .aligned4 [(0, [1, 2, 3])]).2.data) := by
  constructor
  · rw [wrap_decoded_nil, List.map_nil, wrap_built]
    intro heq
    have hlen := congrArg List.length heq
    have h4 : ((buildDyn .packed ([] : List (Nat × List Nat))).2.data).length = 4 := rfl
    have hR : ((leBytes 4 0
        ++ encodeRecords .packed (List.replicate (2 ^ 32) (0, []))).length)
        = 4 + 2 ^ 32 * 10 := by
      rw [List.length_append, length_leBytes, length_encodeRecords_replicate]
    rw [h4] at hlen
    rw [show ((none,
        (⟨leBytes 4 0 ++ encodeRecords .packed (List.replicate (2 ^ 32) (0, []))⟩
          : DynStorage)).2.data).length
      = (leBytes 4 0 ++ encodeRecords .packed (List.replicate (2 ^ 32) (0, []))).length
      from rfl, hR] at hlen
    exact absurd hlen (by norm_num)
  · decide

/-- C3 (amended: the source's comparison is strict, so a request already
fails when `used + length` merely reaches the capacity): a
`request(length)` on fixed storage with capacity `c` and cursor `u`
fails with the buffer-exhausted error exactly when `u + length ≥ c`,
leaving the storage untouched, and succeeds exactly when
`u + length < c`, returning the span of exactly `length` bytes starting
at the next unused byte `u` and advancing the cursor to `u + length`. -/
theorem fixedStorage_request_spec (s : FixedStorage) (len : Nat) :
    (FixedStorage.request s len = (none, s) ↔ s.data.length ≤ s.used + len) ∧
    (s.used + len < s.data.length →
      FixedStorage.request s len
          = (some s.used, { data := s.data, used := s.used + len }) ∧
      ((s.data.drop s.used).take len).length = len) := by
  constructor
  · constructor
    · intro h
      by_contra hge
      push_neg at hge
      simp only [FixedStorage.request, if_pos hge] at h
      exact absurd (congrArg Prod.fst h) (by simp)
    · intro hge
      simp only [FixedStorage.request, if_neg (by omega : ¬s.used + len < s.data.length)]
  · intro hlt
    refine ⟨?_, ?_⟩
    · simp only [FixedStorage.request, if_pos hlt]
    · rw [List.length_take, List.length_drop]
      omega

/-- C3 witness: a successful request on a 6-byte region, hypothesis
discharged. -/
theorem fixedStorage_request_spec_witness :
    0 + 4 < 6 ∧
    FixedStorage.request ⟨List.replicate 6 0, 0⟩ 4
        = (some 0, ⟨List.replicate 6 0, 0 + 4⟩) ∧
    (((List.replicate 6 (0 : Nat)).drop 0).take 4).length = 4 := by
  refine ⟨by decide, ?_, ?_⟩
  · exact ((fixedStorage_request_spec ⟨List.replicate 6 0, 0⟩ 4).2 (by decide)).1
  · exact ((fixedStorage_request_spec ⟨List.replicate 6 0, 0⟩ 4).2 (by decide)).2

/-- C3 counterexample: with capacity 8, cursor 4 and a request of 4
bytes, `u + length = c` — the claim says the request must succeed, but
the code fails it. -/
theorem fixedStorage_request_full_at_capacity :
    FixedStorage.request ⟨List.replicate 8 0, 4⟩ 4
        = (none, ⟨List.replicate 8 0, 4⟩) ∧
    4 + 4 ≤ (List.replicate 8 (0 : Nat)).length := by
  constructor
  · rfl
  · decide

/-- C4: on fixed storage, a push of a representable payload whose
policy-adjusted required size exceeds the remaining capacity fails the
whole operation with the buffer-full error surfaced to the caller,
commits no partial record, and leaves the previously written bytes, the
count header and the `used` cursor exactly unchanged. -/
theorem push_packet_bufferFull_frame (pol : LayoutPolicy) (s : FixedStorage)
    (ts : Nat) (pkt : List Nat) (h1 : pkt.length ≤ 65535)
    (h2 : s.data.length < s.used + padReq pol (10 + pkt.length)) :
    pushPacketFixed pol s ts pkt = (some .bufferFull, s) := by
  simp only [pushPacketFixed, FixedStorage.request, if_pos h1,
    if_neg (by omega : ¬s.used + padReq pol (10 + pkt.length) < s.data.length)]

/-- C4 witness: a 10-byte region with 6 bytes remaining cannot take a
13-byte record; hypotheses discharged. -/
theorem push_packet_bufferFull_frame_witness :
    ([1, 2, 3] : List Nat).length ≤ 65535 ∧
    (List.replicate 10 (0 : Nat)).length
        < 4 + padReq .packed (10 + ([1, 2, 3] : List Nat).length) ∧
    pushPacketFixed .packed ⟨List.replicate 10 0, 4⟩ 0 [1, 2, 3]
        = (some .bufferFull, ⟨List.replicate 10 0, 4⟩) :=
  ⟨by decide, by decide,
    push_packet_bufferFull_frame .packed ⟨List.replicate 10 0, 4⟩ 0 [1, 2, 3]
      (by decide) (by decide)⟩

/-- C7: a payload of exactly 65535 bytes is accepted — on dynamic
storage, and on any fixed storage with room for it — while a payload of
65536 bytes fails with `payloadTooLarge`, surfaced to the caller rather
than truncated, leaving the storage untouched. -/
theorem payload_boundary (pol : LayoutPolicy) (ts : Nat) (s : FixedStorage)
    (h : s.used + padReq pol 65545 < s.data.length) :
    (pushPacketDyn pol dynInit ts (List.replicate 65535 0)).1 = none ∧
    pushPacketDyn pol dynInit ts (List.replicate 65536 0)
        = (some .payloadTooLarge, dynInit) ∧
    (pushPacketFixed pol s ts (List.replicate 65535 0)).1 = none ∧
    pushPacketFixed pol s ts (List.replicate 65536 0)
        = (some .payloadTooLarge, s) := by
  refine ⟨?_, ?_, ?_, ?_⟩
  · simp only [pushPacketDyn, DynStorage.request, List.length_replicate,
      if_pos (by norm_num : (65535 : Nat) ≤ 65535)]
  · simp only [pushPacketDyn, List.length_replicate,
      if_neg (by norm_num : ¬(65536 : Nat) ≤ 65535)]
  · simp only [pushPacketFixed, FixedStorage.request, List.length_replicate,
      if_pos (by norm_num : (65535 : Nat) ≤ 65535), if_pos h]
  · simp only [pushPacketFixed, List.length_replicate,
      if_neg (by norm_num : ¬(65536 : Nat) ≤ 65535)]

/-- C7 witness: a 70000-byte fixed region with cursor 4 has room for the
largest record; hypothesis discharged. -/
theorem payload_boundary_witness :
    4 + padReq .packed 65545 < (List.replicate 70000 (0 : Nat)).length ∧
    ((pushPacketDyn .packed dynInit 0 (List.replicate 65535 0)).1 = none ∧
     pushPacketDyn .packed dynInit 0 (List.replicate 65536 0)
        = (some .payloadTooLarge, dynInit) ∧
     (pushPacketFixed .packed ⟨List.replicate 70000 0, 4⟩ 0
        (List.replicate 65535 0)).1 = none ∧
     pushPacketFixed .packed ⟨List.replicate 70000 0, 4⟩ 0
        (List.replicate 65536 0)
        = (some .payloadTooLarge, ⟨List.replicate 70000 0, 4⟩)) :=
  ⟨by norm_num [padReq], payload_boundary .packed 0 ⟨List.replicate 70000 0, 4⟩
    (by norm_num [padReq])⟩

/-- C9: constructing a builder over a caller-owned (4-byte-aligned) fixed
region succeeds exactly when the region is strictly longer than 4 bytes;
in particular a region of exactly 4 bytes fails at construction with the
buffer-exhausted error, even though the count header occupies exactly 4
bytes. -/
theorem fixed_construction_iff (data : List Nat) :
    ((newWithBufFixed data).1 = none ↔ 4 < data.length) ∧
    ((newWithBufFixed data).1 = none ∨
      (newWithBufFixed data).1 = some .bufferFull) := by
  by_cases h : 0 + 4 < data.length
  · have e : (newWithBufFixed data).1 = none := by
      simp only [newWithBufFixed, FixedStorage.request, if_pos h]
    rw [e]
    exact ⟨⟨fun _ => by omega, fun _ => rfl⟩, Or.inl rfl⟩
  · have e : (newWithBufFixed data).1 = some .bufferFull := by
      simp only [newWithBufFixed, FixedStorage.request, if_neg h]
    rw [e]
    exact ⟨⟨fun hc => absurd hc (by simp), fun hc => absurd hc (by omega)⟩,
      Or.inr rfl⟩

/-- C10: every successful `push_packet` modifies only the 4-byte count
header and the newly requested span.  On fixed storage the region keeps
its length (the base is never moved) and every byte at offset ≥ 4
outside the span — in particular every byte of every previously appended
record — reads back unchanged; on dynamic storage every previously
written record byte reads back unchanged. -/
theorem push_packet_frame (pol : LayoutPolicy) (s : FixedStorage)
    (d : DynStorage) (ts : Nat) (pkt : List Nat) (h1 : pkt.length ≤ 65535)
    (h2 : s.used + padReq pol (10 + pkt.length) < s.data.length) :
    ((pushPacketFixed pol s ts pkt).1 = none ∧
     (pushPacketFixed pol s ts pkt).2.data.length = s.data.length ∧
     (∀ i, 4 ≤ i → (i < s.used ∨ s.used + padReq pol (10 + pkt.length) ≤ i) →
        (pushPacketFixed pol s ts pkt).2.data[i]? = s.data[i]?)) ∧
    ((pushPacketDyn pol d ts pkt).1 = none ∧
     (∀ i, 4 ≤ i → i < d.data.length →
        (pushPacketDyn pol d ts pkt).2.data[i]? = d.data[i]?)) := by
  have hpr := le_padReq pol (10 + pkt.length)
  have hbs : (leBytes 8 ts ++ leBytes 2 pkt.length ++ pkt).length
      = 10 + pkt.length := by
    simp only [List.length_append, length_leBytes]
  have hfix : pushPacketFixed pol s ts pkt
      = (none, ⟨incrCount (writeBytes s.data s.used
          (leBytes 8 ts ++ leBytes 2 pkt.length ++ pkt)),
         s.used + padReq pol (10 + pkt.length)⟩) := by
    simp only [pushPacketFixed, FixedStorage.request, if_pos h1, if_pos h2]
  have hXlen : (writeBytes s.data s.used
      (leBytes 8 ts ++ leBytes 2 pkt.length ++ pkt)).length = s.data.length :=
    length_writeBytes _ _ _ (by rw [hbs]; omega)
  constructor
  · rw [hfix]
    refine ⟨rfl, ?_, ?_⟩
    · show (incrCount (writeBytes s.data s.used
          (leBytes 8 ts ++ leBytes 2 pkt.length ++ pkt))).length = s.data.length
      unfold incrCount
      rw [length_writeBytes _ _ _ (by rw [hXlen, length_leBytes]; omega), hXlen]
    · intro i hi4 hcase
      show (incrCount (writeBytes s.data s.used
          (leBytes 8 ts ++ leBytes 2 pkt.length ++ pkt)))[i]? = s.data[i]?
      unfold incrCount
      rw [getElem?_writeBytes_ge _ _ 0 i
        (by rw [length_leBytes]; omega)
        (by rw [length_leBytes, hXlen]; omega)]
      rcases hcase with hlt | hge
      · exact getElem?_writeBytes_lt _ _ _ _ hlt (by omega)
      · exact getElem?_writeBytes_ge _ _ _ _ (by rw [hbs]; omega)
          (by rw [hbs]; omega)
  · have hdyn : pushPacketDyn pol d ts pkt
        = (none, ⟨incrCount (writeBytes
            (d.data ++ List.replicate (padReq pol (10 + pkt.length)) 0)
            d.data.length
            (leBytes 8 ts ++ leBytes 2 pkt.length ++ pkt))⟩) := by
      simp only [pushPacketDyn, DynStorage.request, if_pos h1]
    have hYbase : (d.data ++ List.replicate (padReq pol (10 + pkt.length)) 0).length
        = d.data.length + padReq pol (10 + pkt.length) := by
      rw [List.length_append, List.length_replicate]
    have hYlen : (writeBytes
        (d.data ++ List.replicate (padReq pol (10 + pkt.length)) 0)
        d.data.length
        (leBytes 8 ts ++ leBytes 2 pkt.length ++ pkt)).length
        = d.data.length + padReq pol (10 + pkt.length) :=
      (length_writeBytes _ _ _ (by rw [hbs, hYbase]; omega)).trans hYbase
    rw [hdyn]
    refine ⟨rfl, ?_⟩
    intro i hi4 hilt
    show (incrCount (writeBytes
        (d.data ++ List.replicate (padReq pol (10 + pkt.length)) 0)
        d.data.length
        (leBytes 8 ts ++ leBytes 2 pkt.length ++ pkt)))[i]? = d.data[i]?
    unfold incrCount
    rw [getElem?_writeBytes_ge _ _ 0 i
      (by rw [length_leBytes]; omega)
      (by rw [length_leBytes, hYlen]; omega)]
    rw [getElem?_writeBytes_lt _ _ _ _ hilt (by rw [hYbase]; omega)]
    rw [List.getElem?_append, if_pos hilt]

/-- C10 witness: a concrete successful push on both storages, hypotheses
discharged. -/
theorem push_packet_frame_witness :
    ([9, 9] : List Nat).length ≤ 65535 ∧
    4 + padReq .packed (10 + ([9, 9] : List Nat).length)
        < (List.replicate 40 (5 : Nat)).length ∧
    (((pushPacketFixed .packed ⟨List.replicate 40 5, 4⟩ 0 [9, 9]).1 = none ∧
      (pushPacketFixed .packed ⟨List.replicate 40 5, 4⟩ 0 [9, 9]).2.data.length
          = (List.replicate 40 (5 : Nat)).length ∧
      (∀ i, 4 ≤ i → (i < 4 ∨ 4 + padReq .packed (10 + ([9, 9] : List Nat).length) ≤ i) →
        (pushPacketFixed .packed ⟨List.replicate 40 5, 4⟩ 0 [9, 9]).2.data[i]?
            = (List.replicate 40 (5 : Nat))[i]?)) ∧
     ((pushPacketDyn .packed ⟨[0, 0, 0, 0]⟩ 0 [9, 9]).1 = none ∧
      (∀ i, 4 ≤ i → i < ([0, 0, 0, 0] : List Nat).length →
        (pushPacketDyn .packed ⟨[0, 0, 0, 0]⟩ 0 [9, 9]).2.data[i]?
            = ([0, 0, 0, 0] : List Nat)[i]?))) :=
  ⟨by decide, by decide,
    push_packet_frame .packed ⟨List.replicate 40 5, 4⟩ ⟨[0, 0, 0, 0]⟩ 0 [9, 9]
      (by decide) (by decide)⟩

end Packets
